import Mathlib

/-!
Verification development for the RepoSense context-acquisition and
report-assembly pipeline.  The definitions below are shallow embeddings of
the TypeScript sources `src/services/github.ts` and `src/services/gemini.ts`:
pure string manipulation is embedded directly, and the network layer is
modelled by an explicit environment mapping each request to its response.
-/

/-! ## JavaScript string primitives -/

/-- The character class recognised by JavaScript `String.prototype.trim` and
by the regular-expression class `\s` (WhiteSpace plus LineTerminator). -/
def jsWhitespace (c : Char) : Bool :=
  c == ' ' || c == '\t' || c == '\n' || c == '\r' || c == '\x0b' || c == '\x0c' ||
  c == '\u00A0' || c == '\uFEFF' || c == '\u1680' ||
  ( '\u2000' <= c && c <= '\u200A') ||
  c == '\u2028' || c == '\u2029' || c == '\u202F' || c == '\u205F' || c == '\u3000'

/-- `trim` on a character list: drop whitespace from both ends. -/
def jsTrimList (l : List Char) : List Char :=
  ((l.dropWhile jsWhitespace).reverse.dropWhile jsWhitespace).reverse

/-- JavaScript `s.trim()`. -/
def jsTrim (s : String) : String := ⟨jsTrimList s.data⟩

/-- `leadsList n h` holds when `n` is an initial run of `h`
(JavaScript `h.startsWith(n)` on character lists). -/
def leadsList : List Char → List Char → Bool
  | [], _ => true
  | _ :: _, [] => false
  | a :: as, b :: bs => a == b && leadsList as bs

/-- `trailsList n h` holds when `n` is a final run of `h`
(JavaScript `h.endsWith(n)` on character lists). -/
def trailsList (n h : List Char) : Bool := leadsList n.reverse h.reverse

/-- `occursIn n h` holds when `n` occurs contiguously inside `h`
(JavaScript `h.includes(n)` on character lists). -/
def occursIn (n : List Char) : List Char → Bool
  | [] => leadsList n []
  | c :: cs => leadsList n (c :: cs) || occursIn n cs

/-- JavaScript `s.includes(t)`. -/
def strHas (s t : String) : Bool := occursIn t.data s.data

/-- JavaScript `s.startsWith(t)`. -/
def strStarts (s t : String) : Bool := leadsList t.data s.data

/-- ASCII lower casing of a character list (JavaScript `toLowerCase` restricted
to the ASCII names appearing in this code base). -/
def toLowerList (l : List Char) : List Char := l.map Char.toLower

/-- JavaScript `s.toLowerCase()` (ASCII fragment). -/
def jsToLower (s : String) : String := ⟨toLowerList s.data⟩

/-- Split a character list at every occurrence of `sep`
(JavaScript `s.split(sep)` never yields an empty list). -/
def splitOnChar (sep : Char) : List Char → List (List Char)
  | [] => [[]]
  | c :: cs =>
    let r := splitOnChar sep cs
    if c == sep then [] :: r
    else
      match r with
      | [] => [[c]]
      | h :: t => (c :: h) :: t

/-- JavaScript `text.split('\n')`. -/
def splitLines (s : String) : List String :=
  (splitOnChar '\n' s.data).map fun l => ⟨l⟩

/-- JavaScript `s.substring(0, n)`. -/
def jsSubstrTake (s : String) (n : Nat) : String := ⟨s.data.take n⟩

/-- JavaScript `Array.prototype.join(sep)`. -/
def joinSep (sep : String) : List String → String
  | [] => ""
  | [x] => x
  | x :: y :: xs => x ++ sep ++ joinSep sep (y :: xs)

/-! ## Data model (src/types.ts and src/services/github.ts) -/

/-- Kind of a GitHub contents entry. -/
inductive ItemType where
  | file
  | dir
deriving DecidableEq, Repr

/-- One entry of a GitHub directory listing (`GithubContentItem` in
`src/services/github.ts`). -/
structure GithubContentItem where
  name : String
  path : String
  type : ItemType
  url : String := ""
  size : Option Nat := none
deriving DecidableEq, Repr

/-- A fetched file with decoded content (`FileData` in `src/types.ts`). -/
structure FileData where
  path : String
  content : String
deriving DecidableEq, Repr

/-! ## File Selector (`selectImportantFiles`, src/services/github.ts 68-99) -/

/-- The canonical config/manifest/readme names of `selectImportantFiles`. -/
def IMPORTANT_NAMES : List String :=
  ["package.json", "go.mod", "cargo.toml", "requirements.txt", "pom.xml", "build.gradle",
   "dockerfile", "docker-compose.yml", "next.config.js", "tsconfig.json", "vite.config.ts",
   "readme.md"]

/-- Case-insensitive membership in `IMPORTANT_NAMES`. -/
def isImportantName (name : String) : Bool :=
  IMPORTANT_NAMES.contains (jsToLower name)

/-- The source-code extensions matched by `/\.(ts|tsx|js|jsx|py|go|rs|java|c|cpp)$/`. -/
def CODE_EXTS : List String :=
  [".ts", ".tsx", ".js", ".jsx", ".py", ".go", ".rs", ".java", ".c", ".cpp"]

/-- The anchored extension test of `selectImportantFiles` applied to the
lower-cased name. -/
def hasCodeExt (lower : String) : Bool :=
  CODE_EXTS.any fun e => trailsList e.data lower.data

/-- Tier-1 test: a file whose lower-cased name is canonical. -/
def tierOnePred (i : GithubContentItem) : Bool :=
  decide (i.type = ItemType.file) && isImportantName i.name

/-- Tier-2 test: a file that is not canonical, has a source-code extension and
is not marked as a test or spec file. -/
def tierTwoPred (i : GithubContentItem) : Bool :=
  decide (i.type = ItemType.file) &&
  !isImportantName i.name &&
  (hasCodeExt (jsToLower i.name) &&
   !strHas (jsToLower i.name) ".test." &&
   !strHas (jsToLower i.name) ".spec.")

/-- JavaScript `Map.prototype.set`: replace the value at an existing key in
place, otherwise append the binding. -/
def insertKeyed : List (String × GithubContentItem) → String → GithubContentItem →
    List (String × GithubContentItem)
  | [], k, v => [(k, v)]
  | (k', v') :: rest, k, v =>
    if k' == k then (k, v) :: rest else (k', v') :: insertKeyed rest k v

/-- The `new Map()` deduplication of `selectImportantFiles`: key-insertion
order is kept, the value stored for a key is the last one written. -/
def dedupByPath (items : List GithubContentItem) : List GithubContentItem :=
  (items.foldl (fun m i => insertKeyed m i.path i) []).map Prod.snd

/-- `selectImportantFiles` (src/services/github.ts 68-99): up to three
priority configs, up to four code entry points, deduplicated by path,
hard-capped at seven. -/
def selectImportantFiles (items : List GithubContentItem) : List GithubContentItem :=
  let configs := (items.filter tierOnePred).take 3
  let codeFiles := (items.filter tierTwoPred).take 4
  (dedupByPath (configs ++ codeFiles)).take 7

/-- The tier-1 selection: priority configs, capped at three. -/
def tierOneSel (items : List GithubContentItem) : List GithubContentItem :=
  (items.filter tierOnePred).take 3

/-- The tier-2 selection: code entry points, capped at four. -/
def tierTwoSel (items : List GithubContentItem) : List GithubContentItem :=
  (items.filter tierTwoPred).take 4

/-! ## Lemmas about the File Selector -/

theorem mem_tierOneSel {items : List GithubContentItem} {x : GithubContentItem}
    (hx : x ∈ tierOneSel items) : x ∈ items ∧ tierOnePred x = true := by
  have h1 : x ∈ items.filter tierOnePred := (List.take_sublist 3 _).subset hx
  exact ⟨(List.mem_filter.mp h1).1, (List.mem_filter.mp h1).2⟩

theorem mem_tierTwoSel {items : List GithubContentItem} {x : GithubContentItem}
    (hx : x ∈ tierTwoSel items) : x ∈ items ∧ tierTwoPred x = true := by
  have h1 : x ∈ items.filter tierTwoPred := (List.take_sublist 4 _).subset hx
  exact ⟨(List.mem_filter.mp h1).1, (List.mem_filter.mp h1).2⟩

theorem tierOne_not_tierTwo {x : GithubContentItem}
    (h1 : tierOnePred x = true) (h2 : tierTwoPred x = true) : False := by
  simp only [tierOnePred, tierTwoPred, Bool.and_eq_true, Bool.not_eq_true',
    decide_eq_true_eq] at h1 h2
  rw [h1.2] at h2
  exact absurd h2.1.2 (by simp)

theorem tierTwo_tierOnePred_false {x : GithubContentItem}
    (h2 : tierTwoPred x = true) : tierOnePred x = false := by
  rcases h : tierOnePred x with _ | _
  · rfl
  · exact absurd (tierOne_not_tierTwo h h2) not_false

theorem tierOne_tierTwoPred_false {x : GithubContentItem}
    (h1 : tierOnePred x = true) : tierTwoPred x = false := by
  rcases h : tierTwoPred x with _ | _
  · rfl
  · exact absurd (tierOne_not_tierTwo h1 h) not_false

theorem combined_paths_nodup (items : List GithubContentItem)
    (h : (items.map (fun i => i.path)).Nodup) :
    ((tierOneSel items ++ tierTwoSel items).map (fun i => i.path)).Nodup := by
  rw [List.map_append, List.nodup_append]
  refine ⟨?_, ?_, ?_⟩
  · exact h.sublist
      (List.Sublist.map _ ((List.take_sublist 3 _).trans (List.filter_sublist _)))
  · exact h.sublist
      (List.Sublist.map _ ((List.take_sublist 4 _).trans (List.filter_sublist _)))
  · intro p hp1 hp2
    obtain ⟨x, hx, rfl⟩ := List.mem_map.mp hp1
    obtain ⟨y, hy, hxy⟩ := List.mem_map.mp hp2
    obtain ⟨hxi, hx1⟩ := mem_tierOneSel hx
    obtain ⟨hyi, hy2⟩ := mem_tierTwoSel hy
    have hxey : x = y := List.inj_on_of_nodup_map h hxi hyi hxy.symm
    exact tierOne_not_tierTwo hx1 (hxey ▸ hy2)

theorem insertKeyed_fresh (m : List (String × GithubContentItem)) (k : String)
    (v : GithubContentItem) (hk : k ∉ m.map Prod.fst) :
    insertKeyed m k v = m ++ [(k, v)] := by
  induction m with
  | nil => rfl
  | cons p rest ih =>
    simp only [List.map_cons, List.mem_cons, not_or] at hk
    rcases p with ⟨k', v'⟩
    simp only [insertKeyed]
    rw [if_neg (by simpa using fun e : k' = k => hk.1 e.symm)]
    rw [ih hk.2, List.cons_append]

theorem dedup_foldl (l : List GithubContentItem) (acc : List (String × GithubContentItem))
    (h : (acc.map Prod.fst ++ l.map (fun i => i.path)).Nodup) :
    l.foldl (fun m i => insertKeyed m i.path i) acc = acc ++ l.map (fun i => (i.path, i)) := by
  induction l generalizing acc with
  | nil => simp
  | cons a rest ih =>
    have hfresh : a.path ∉ acc.map Prod.fst := by
      rw [List.nodup_append] at h
      exact fun hmem => h.2.2 hmem (by simp)
    simp only [List.foldl_cons]
    rw [insertKeyed_fresh _ _ _ hfresh, ih]
    · simp
    · simpa [List.append_assoc] using h

theorem dedupByPath_self (l : List GithubContentItem)
    (h : (l.map (fun i => i.path)).Nodup) : dedupByPath l = l := by
  unfold dedupByPath
  rw [dedup_foldl l [] (by simpa using h)]
  simp only [List.nil_append, List.map_map]
  have hc : (Prod.snd ∘ fun i : GithubContentItem => (i.path, i)) = id := rfl
  rw [hc, List.map_id]

theorem select_eq_append (items : List GithubContentItem)
    (h : (items.map (fun i => i.path)).Nodup) :
    selectImportantFiles items = tierOneSel items ++ tierTwoSel items := by
  show (dedupByPath (tierOneSel items ++ tierTwoSel items)).take 7 = _
  rw [dedupByPath_self _ (combined_paths_nodup items h)]
  refine List.take_of_length_le ?_
  rw [List.length_append]
  calc (tierOneSel items).length + (tierTwoSel items).length
      ≤ 3 + 4 := Nat.add_le_add (List.length_take_le 3 _) (List.length_take_le 4 _)
    _ ≤ 7 := le_refl 7

theorem tierOneSel_append_tiers (items : List GithubContentItem) :
    tierOneSel (tierOneSel items ++ tierTwoSel items) = tierOneSel items := by
  show ((tierOneSel items ++ tierTwoSel items).filter tierOnePred).take 3 = _
  rw [List.filter_append,
    List.filter_eq_self.mpr (fun x hx => (mem_tierOneSel hx).2),
    List.filter_eq_nil_iff.mpr
      (fun x hx => by simp [tierTwo_tierOnePred_false (mem_tierTwoSel hx).2]),
    List.append_nil]
  exact List.take_of_length_le (List.length_take_le 3 _)

theorem tierTwoSel_append_tiers (items : List GithubContentItem) :
    tierTwoSel (tierOneSel items ++ tierTwoSel items) = tierTwoSel items := by
  show ((tierOneSel items ++ tierTwoSel items).filter tierTwoPred).take 4 = _
  rw [List.filter_append,
    List.filter_eq_nil_iff.mpr
      (fun x hx => by simp [tierOne_tierTwoPred_false (mem_tierOneSel hx).2]),
    List.filter_eq_self.mpr (fun x hx => (mem_tierTwoSel hx).2),
    List.nil_append]
  exact List.take_of_length_le (List.length_take_le 4 _)

theorem selectImportantFiles_length_le (items : List GithubContentItem) :
    (selectImportantFiles items).length ≤ 7 :=
  List.length_take_le 7 _

/-! ## Claim C3 -/

/-- C3 (amended): on every input list in which no two entries share a path,
`selectImportantFiles` is idempotent and order-preserving (re-running it on
its own output returns the same list in the same order); on every input list
whatsoever the output length never exceeds the global cap of 7. -/
theorem C3_selectFiles_idempotent_and_capped
    (items items2 : List GithubContentItem)
    (h : (items.map (fun i => i.path)).Nodup) :
    selectImportantFiles (selectImportantFiles items) = selectImportantFiles items ∧
    (selectImportantFiles items2).length ≤ 7 := by
  constructor
  · rw [select_eq_append items h,
      select_eq_append (tierOneSel items ++ tierTwoSel items) (combined_paths_nodup items h),
      tierOneSel_append_tiers, tierTwoSel_append_tiers]
  · exact selectImportantFiles_length_le items2

/-- C3 counterexample: with two entries sharing the path "m" (a canonical
`go.mod` and a code file `b.ts`), the `Map` deduplication keeps the first
insertion position but the last value, so the output is `[b.ts, readme.md]`
while re-running the selector on it yields `[readme.md, b.ts]`: the claim's
unconditional idempotence is false. -/
theorem C3_counterexample :
    selectImportantFiles (selectImportantFiles
      [⟨"go.mod", "m", ItemType.file, "", none⟩,
       ⟨"readme.md", "r", ItemType.file, "", none⟩,
       ⟨"b.ts", "m", ItemType.file, "", none⟩]) ≠
    selectImportantFiles
      [⟨"go.mod", "m", ItemType.file, "", none⟩,
       ⟨"readme.md", "r", ItemType.file, "", none⟩,
       ⟨"b.ts", "m", ItemType.file, "", none⟩] := by decide

/-- Concrete input for the C3 witness: distinct paths, both tiers inhabited. -/
def selWitnessItems : List GithubContentItem :=
  [⟨"package.json", "package.json", ItemType.file, "", none⟩,
   ⟨"index.ts", "src/index.ts", ItemType.file, "", none⟩,
   ⟨"readme.md", "README.md", ItemType.file, "", none⟩]

/-- C3 witness: the amended theorem applied at a concrete input. -/
theorem C3_witness :
    selectImportantFiles (selectImportantFiles selWitnessItems) =
      selectImportantFiles selWitnessItems ∧
    (selectImportantFiles selWitnessItems).length ≤ 7 :=
  C3_selectFiles_idempotent_and_capped selWitnessItems selWitnessItems (by decide)

/-! ## Claim C6 -/

/-- Ten canonical config files on distinct paths. -/
def tenConfigInput : List GithubContentItem :=
  [⟨"package.json", "p0", ItemType.file, "", none⟩,
   ⟨"go.mod", "p1", ItemType.file, "", none⟩,
   ⟨"cargo.toml", "p2", ItemType.file, "", none⟩,
   ⟨"requirements.txt", "p3", ItemType.file, "", none⟩,
   ⟨"pom.xml", "p4", ItemType.file, "", none⟩,
   ⟨"build.gradle", "p5", ItemType.file, "", none⟩,
   ⟨"Dockerfile", "p6", ItemType.file, "", none⟩,
   ⟨"tsconfig.json", "p7", ItemType.file, "", none⟩,
   ⟨"vite.config.ts", "p8", ItemType.file, "", none⟩,
   ⟨"README.md", "p9", ItemType.file, "", none⟩]

/-- C6 (amended): on every input list in which no two entries share a path,
the output of `selectImportantFiles` is exactly the at-most-3 canonical
tier-1 files followed by the at-most-4 tier-2 source files, the tier
sub-caps are applied before the global cap, every path appears exactly once,
tier-1 members are canonical-named files and tier-2 members are
non-canonical source files; in particular, of ten canonical config files at
most 3 (exactly 3) appear in the output. -/
theorem C6_tier_structure (items : List GithubContentItem)
    (h : (items.map (fun i => i.path)).Nodup) :
    selectImportantFiles items = tierOneSel items ++ tierTwoSel items ∧
    (tierOneSel items).length ≤ 3 ∧
    (tierTwoSel items).length ≤ 4 ∧
    ((selectImportantFiles items).map (fun i => i.path)).Nodup ∧
    (∀ x ∈ tierOneSel items,
      x.type = ItemType.file ∧ isImportantName x.name = true) ∧
    (∀ y ∈ tierTwoSel items,
      y.type = ItemType.file ∧ isImportantName y.name = false ∧
        hasCodeExt (jsToLower y.name) = true) ∧
    (selectImportantFiles tenConfigInput).length = 3 := by
  refine ⟨select_eq_append items h, List.length_take_le 3 _, List.length_take_le 4 _,
    ?_, ?_, ?_, by decide⟩
  · rw [select_eq_append items h]
    exact combined_paths_nodup items h
  · intro x hx
    have hx2 := (mem_tierOneSel hx).2
    simp only [tierOnePred, Bool.and_eq_true, decide_eq_true_eq] at hx2
    exact ⟨hx2.1, hx2.2⟩
  · intro y hy
    have hy2 := (mem_tierTwoSel hy).2
    simp only [tierTwoPred, Bool.and_eq_true, Bool.not_eq_true',
      decide_eq_true_eq] at hy2
    exact ⟨hy2.1.1, hy2.1.2, hy2.2.1.1⟩

/-- C6 counterexample: with a canonical `package.json` and a code file
`main.ts` sharing the path "x", the selector output is
`[main.ts, readme.md]` — a non-canonical tier-2 file followed by a canonical
tier-1 file — so the claimed "tier-1 block followed by tier-2 block" shape
is false for arbitrary inputs. -/
theorem C6_counterexample :
    selectImportantFiles
      [⟨"package.json", "x", ItemType.file, "", none⟩,
       ⟨"readme.md", "y", ItemType.file, "", none⟩,
       ⟨"main.ts", "x", ItemType.file, "", none⟩] =
      [⟨"main.ts", "x", ItemType.file, "", none⟩,
       ⟨"readme.md", "y", ItemType.file, "", none⟩] ∧
    isImportantName "main.ts" = false ∧
    isImportantName "readme.md" = true ∧
    hasCodeExt (jsToLower "main.ts") = true := by decide

/-- Concrete input for the C6 witness. -/
def tierWitnessItems : List GithubContentItem :=
  [⟨"package.json", "package.json", ItemType.file, "", none⟩,
   ⟨"app.ts", "src/app.ts", ItemType.file, "", none⟩]

/-- C6 witness: the amended theorem applied at a concrete input with both
tiers inhabited. -/
theorem C6_witness :
    selectImportantFiles tierWitnessItems =
      tierOneSel tierWitnessItems ++ tierTwoSel tierWitnessItems ∧
    (tierOneSel tierWitnessItems).length ≤ 3 ∧
    (tierTwoSel tierWitnessItems).length ≤ 4 ∧
    ((selectImportantFiles tierWitnessItems).map (fun i => i.path)).Nodup ∧
    (∀ x ∈ tierOneSel tierWitnessItems,
      x.type = ItemType.file ∧ isImportantName x.name = true) ∧
    (∀ y ∈ tierTwoSel tierWitnessItems,
      y.type = ItemType.file ∧ isImportantName y.name = false ∧
        hasCodeExt (jsToLower y.name) = true) ∧
    (selectImportantFiles tenConfigInput).length = 3 :=
  C6_tier_structure tierWitnessItems (by decide)

/-! ## Report data model (src/types.ts) -/

/-- Analysis mode selector. -/
inductive AnalysisMode where
  | full
  | architecture
  | risks
deriving DecidableEq, Repr

/-- Project complexity level. -/
inductive Complexity where
  | Beginner
  | Intermediate
  | Advanced
deriving DecidableEq, Repr

/-- Maintainability rating. -/
inductive Maintainability where
  | Low
  | Medium
  | High
deriving DecidableEq, Repr

/-- One named report section (`SectionContent` in `src/types.ts`). -/
structure SectionContent where
  title : String
  items : List String
deriving DecidableEq, Repr

/-- The meta block of a report (`MetaAnalysisData` in `src/types.ts`). -/
structure MetaAnalysisData where
  qualityScore : Nat
  complexity : Complexity
  maintainability : Maintainability
deriving DecidableEq, Repr

/-- A full report (`RepoAnalysis` in `src/types.ts`). -/
structure RepoAnalysis where
  projectOverview : SectionContent
  architectureSummary : SectionContent
  componentBreakdown : SectionContent
  dataControlFlow : SectionContent
  codeQualityRisks : SectionContent
  improvementSuggestions : SectionContent
  metaAnalysis : MetaAnalysisData
  architectureDiagram : String
  isFallback : Bool := false
deriving DecidableEq, Repr

/-- `AnalysisSection.Overview`. -/
def OVERVIEW_KEY : String := "PROJECT OVERVIEW"

/-- `AnalysisSection.Architecture`. -/
def ARCHITECTURE_KEY : String := "ARCHITECTURE SUMMARY"

/-- `AnalysisSection.Components`. -/
def COMPONENTS_KEY : String := "COMPONENT BREAKDOWN"

/-- `AnalysisSection.DataFlow`. -/
def DATAFLOW_KEY : String := "DATA & CONTROL FLOW"

/-- `AnalysisSection.Quality`. -/
def QUALITY_KEY : String := "CODE QUALITY & RISKS"

/-- `AnalysisSection.Improvements`. -/
def IMPROVEMENTS_KEY : String := "IMPROVEMENT SUGGESTIONS"

/-- `AnalysisSection.Meta`. -/
def META_KEY : String := "META ANALYSIS"

/-- `AnalysisSection.Diagram`. -/
def DIAGRAM_KEY : String := "ARCHITECTURE DIAGRAM"

/-! ## Incremental Report Parser (`parseAnalysisResult`, src/services/gemini.ts 239-302) -/

/-- JavaScript object property assignment `sections[k] = v`: overwrite in
place, or append when the key is new (property order is first-insertion
order). -/
def setKey : List (String × List String) → String → List String →
    List (String × List String)
  | [], k, v => [(k, v)]
  | (k', v') :: rest, k, v =>
    if k' == k then (k, v) :: rest else (k', v') :: setKey rest k v

/-- JavaScript `sections[k].push(x)` (a no-op on an absent key, which never
happens: the parser creates the key before pushing to it). -/
def pushAt : List (String × List String) → String → String →
    List (String × List String)
  | [], _, _ => []
  | (k', v') :: rest, k, x =>
    if k' == k then (k', v' ++ [x]) :: rest else (k', v') :: pushAt rest k x

/-- JavaScript property lookup `sections[k]`. -/
def getKey? : List (String × List String) → String → Option (List String)
  | [], _ => none
  | (k', v') :: rest, k => if k' == k then some v' else getKey? rest k

/-- JavaScript `trimmed.replace(/===/g, '')`: remove every non-overlapping
occurrence of `===`, scanning left to right. -/
def removeMarks : List Char → List Char
  | '=' :: '=' :: '=' :: rest => removeMarks rest
  | c :: rest => c :: removeMarks rest
  | [] => []

/-- JavaScript `trimmed.replace(/^[-•*]\s/, '')`: strip one leading bullet
marker followed by one whitespace character. -/
def stripBullet (l : List Char) : List Char :=
  match l with
  | c :: d :: rest =>
    if (c == '-' || c == '•' || c == '*') && jsWhitespace d then rest else l
  | _ => l

/-- The line-scanning state of `parseAnalysisResult`. -/
structure PState where
  sections : List (String × List String)
  currentSection : Option String
  diagram : String
deriving Repr

/-- One iteration of the `for (const line of lines)` loop of
`parseAnalysisResult` (src/services/gemini.ts 246-264). -/
def processLine (st : PState) (line : String) : PState :=
  let trimmed := jsTrimList line.data
  if leadsList "===".data trimmed && trailsList "===".data trimmed then
    let name : String := ⟨jsTrimList (removeMarks trimmed)⟩
    { st with currentSection := some name, sections := setKey st.sections name [] }
  else if st.currentSection == some DIAGRAM_KEY then
    { st with diagram := st.diagram ++ line ++ "\n" }
  else
    match st.currentSection with
    | some sec =>
      if sec != "" && !trimmed.isEmpty then
        { st with sections := pushAt st.sections sec ⟨stripBullet trimmed⟩ }
      else st
    | none => st

/-- The full line scan of `parseAnalysisResult`. -/
def runParse (text : String) : PState :=
  (splitLines text).foldl processLine ⟨[], none, ""⟩

/-- The `getSection` helper of `parseAnalysisResult`. -/
def getSection (sections : List (String × List String)) (key : String) :
    SectionContent :=
  ⟨key, (getKey? sections key).getD []⟩

/-- First maximal run of decimal digits (JavaScript `l.match(/\d+/)?.[0]`). -/
def firstDigitRun : List Char → Option (List Char)
  | [] => none
  | c :: cs =>
    if c.isDigit then some (c :: cs.takeWhile Char.isDigit) else firstDigitRun cs

/-- Decimal value of a digit string (JavaScript `parseInt` on a digit run). -/
def digitsToNat (l : List Char) : Nat :=
  l.foldl (fun n c => n * 10 + (c.toNat - 48)) 0

/-- One iteration of the `metaLines.forEach` loop of `parseAnalysisResult`
(src/services/gemini.ts 280-290). -/
def metaStep (md : MetaAnalysisData) (l : String) : MetaAnalysisData :=
  let md := if strHas l "Score" then
      { md with qualityScore := digitsToNat ((firstDigitRun l.data).getD ['5']) }
    else md
  let md := if strHas l "Complexity" then
      let md := if strHas (jsToLower l) "beginner" then
          { md with complexity := Complexity.Beginner }
        else md
      if strHas (jsToLower l) "advanced" then
        { md with complexity := Complexity.Advanced }
      else md
    else md
  if strHas l "Maintainability" then
    let md := if strHas (jsToLower l) "low" then
        { md with maintainability := Maintainability.Low }
      else md
    if strHas (jsToLower l) "high" then
      { md with maintainability := Maintainability.High }
    else md
  else md

/-- The meta-extraction pass of `parseAnalysisResult`, starting from the
defaulted `MetaAnalysisData`. -/
def parseMeta (metaLines : List String) : MetaAnalysisData :=
  metaLines.foldl metaStep ⟨5, Complexity.Intermediate, Maintainability.Medium⟩

/-- `parseAnalysisResult` (src/services/gemini.ts 239-302): a pure function
of the accumulated text; the `mode` argument is accepted and ignored exactly
as in the source. -/
def parseAnalysisResult (text : String) (mode : AnalysisMode) : RepoAnalysis :=
  let st := runParse text
  { projectOverview := getSection st.sections OVERVIEW_KEY,
    architectureSummary := getSection st.sections ARCHITECTURE_KEY,
    componentBreakdown := getSection st.sections COMPONENTS_KEY,
    dataControlFlow := getSection st.sections DATAFLOW_KEY,
    codeQualityRisks := getSection st.sections QUALITY_KEY,
    improvementSuggestions := getSection st.sections IMPROVEMENTS_KEY,
    metaAnalysis := parseMeta ((getKey? st.sections META_KEY).getD []),
    architectureDiagram := jsTrim st.diagram,
    isFallback := false }

/-! ## Streaming accumulation (src/unnamed/part_003, analyzeRepo loop) -/

/-- The accumulated text after all chunks have been appended. -/
def streamAccumulate (chunks : List String) : String :=
  chunks.foldl (fun a c => a ++ c) ""

/-- The streaming loop: append each chunk to the accumulator and re-parse the
grown accumulator, keeping every progress snapshot. -/
def streamStates (chunks : List String) (mode : AnalysisMode) :
    String × List RepoAnalysis :=
  chunks.foldl
    (fun st c => (st.1 ++ c, st.2 ++ [parseAnalysisResult (st.1 ++ c) mode]))
    ("", [])

/-- The final parse performed after the stream ends. -/
def streamFinalReport (chunks : List String) (mode : AnalysisMode) : RepoAnalysis :=
  parseAnalysisResult (streamStates chunks mode).1 mode

/-! ## Claim C4 -/

theorem stream_fst (mode : AnalysisMode) (chunks : List String) :
    ∀ (a : String) (rs : List RepoAnalysis),
    (chunks.foldl
      (fun st c => (st.1 ++ c, st.2 ++ [parseAnalysisResult (st.1 ++ c) mode]))
      (a, rs)).1 = chunks.foldl (fun x c => x ++ c) a := by
  induction chunks with
  | nil => intro a rs; rfl
  | cons c cs ih => intro a rs; simp only [List.foldl_cons]; exact ih _ _

theorem stream_snd (mode : AnalysisMode) (chunks : List String) (hne : chunks ≠ []) :
    ∀ (a : String) (rs : List RepoAnalysis),
    (chunks.foldl
      (fun st c => (st.1 ++ c, st.2 ++ [parseAnalysisResult (st.1 ++ c) mode]))
      (a, rs)).2.getLast?
      = some (parseAnalysisResult (chunks.foldl (fun x c => x ++ c) a) mode) := by
  induction chunks with
  | nil => exact absurd rfl hne
  | cons c cs ih =>
    intro a rs
    by_cases hcs : cs = []
    · subst hcs
      simp only [List.foldl_cons, List.foldl_nil]
      exact List.getLast?_concat _
    · simp only [List.foldl_cons]
      exact ih hcs _ _

/-- C4: for every complete text and every way of splitting it into chunks,
the final report of the incremental loop (append each chunk to the
accumulator, re-parse the grown accumulator each time, and parse once more
at the end) equals the one-shot parse of the full text, and so does the last
progress snapshot: the parse is a pure function of the accumulated text with
no state across calls. -/
theorem C4_parse_roundtrip (chunks : List String) (fullText : String)
    (mode : AnalysisMode)
    (hsplit : streamAccumulate chunks = fullText) (hne : chunks ≠ []) :
    streamFinalReport chunks mode = parseAnalysisResult fullText mode ∧
    (streamStates chunks mode).2.getLast? =
      some (parseAnalysisResult fullText mode) := by
  subst hsplit
  constructor
  · unfold streamFinalReport streamStates streamAccumulate
    rw [stream_fst]
  · unfold streamStates streamAccumulate
    rw [stream_snd mode chunks hne]

/-- C4 witness: the round-trip theorem applied to a concrete three-chunk
split of a well-formed delimited-sections text. -/
theorem C4_witness :
    streamFinalReport ["=== PROJECT OV", "ERVIEW ===\n- Does X\n", "- Does Y"]
        AnalysisMode.full
      = parseAnalysisResult "=== PROJECT OVERVIEW ===\n- Does X\n- Does Y"
        AnalysisMode.full ∧
    (streamStates ["=== PROJECT OV", "ERVIEW ===\n- Does X\n", "- Does Y"]
        AnalysisMode.full).2.getLast? =
      some (parseAnalysisResult "=== PROJECT OVERVIEW ===\n- Does X\n- Does Y"
        AnalysisMode.full) :=
  C4_parse_roundtrip ["=== PROJECT OV", "ERVIEW ===\n- Does X\n", "- Does Y"]
    "=== PROJECT OVERVIEW ===\n- Does X\n- Does Y" AnalysisMode.full
    (by decide) (by decide)

/-! ## Claim C5 -/

/-- No trailing whitespace: the last character, if any, is not whitespace. -/
def noTrailWs (s : String) : Bool :=
  match s.data.getLast? with
  | none => true
  | some c => !jsWhitespace c

theorem head?_dropWhile_false (p : Char → Bool) :
    ∀ (l : List Char) (c : Char), (l.dropWhile p).head? = some c → p c = false := by
  intro l
  induction l with
  | nil => intro c h; simp [List.dropWhile] at h
  | cons a as ih =>
    intro c h
    rw [List.dropWhile_cons] at h
    by_cases hp : p a = true
    · rw [if_pos hp] at h
      exact ih c h
    · rw [if_neg hp] at h
      simp only [List.head?_cons, Option.some.injEq] at h
      rw [← h]
      exact Bool.not_eq_true _ ▸ (Bool.eq_false_iff.mpr hp)

theorem trim_getLast_not_ws (l : List Char) (c : Char)
    (h : (jsTrimList l).getLast? = some c) : jsWhitespace c = false := by
  unfold jsTrimList at h
  rw [List.getLast?_reverse] at h
  exact head?_dropWhile_false jsWhitespace _ c h

theorem stripBullet_keeps (t : List Char) (hne : t ≠ [])
    (hlast : ∀ c, t.getLast? = some c → jsWhitespace c = false) :
    stripBullet t ≠ [] ∧
    (∀ c, (stripBullet t).getLast? = some c → jsWhitespace c = false) := by
  cases t with
  | nil => exact absurd rfl hne
  | cons a t' =>
    cases t' with
    | nil => exact ⟨hne, hlast⟩
    | cons b rest =>
      simp only [stripBullet]
      by_cases hcond : ((a == '-' || a == '•' || a == '*') && jsWhitespace b) = true
      · rw [if_pos hcond]
        cases rest with
        | nil =>
          exfalso
          have hb := hlast b (by simp)
          simp only [Bool.and_eq_true] at hcond
          rw [hb] at hcond
          exact absurd hcond.2 (by simp)
        | cons e rest' =>
          refine ⟨by simp, ?_⟩
          intro c hc
          apply hlast c
          simpa [List.getLast?_cons_cons] using hc
      · rw [if_neg hcond]
        exact ⟨hne, hlast⟩

/-- A parser item satisfies the section-item invariant with respect to the
lines of the input text. -/
def itemOK (lines : List String) (item : String) : Prop :=
  item ≠ "" ∧ noTrailWs item = true ∧
  ∃ l ∈ lines, jsTrimList l.data ≠ [] ∧ item = ⟨stripBullet (jsTrimList l.data)⟩

/-- Every item stored in the sections table satisfies the invariant. -/
def stInv (lines : List String) (st : PState) : Prop :=
  ∀ kv ∈ st.sections, ∀ item ∈ kv.2, itemOK lines item

theorem mem_setKey {m : List (String × List String)} {k : String}
    {v : List String} {kv : String × List String}
    (h : kv ∈ setKey m k v) : kv ∈ m ∨ kv = (k, v) := by
  induction m with
  | nil =>
    right
    simpa [setKey] using h
  | cons p rest ih =>
    rcases p with ⟨k', v'⟩
    simp only [setKey] at h
    by_cases he : (k' == k) = true
    · rw [if_pos he] at h
      rcases List.mem_cons.mp h with h1 | h2
      · right; exact h1
      · left; exact List.mem_cons_of_mem _ h2
    · rw [if_neg he] at h
      rcases List.mem_cons.mp h with h1 | h2
      · left; rw [h1]; exact List.mem_cons_self _ _
      · rcases ih h2 with h3 | h4
        · left; exact List.mem_cons_of_mem _ h3
        · right; exact h4

theorem mem_pushAt {m : List (String × List String)} {k : String} {x : String}
    {kv : String × List String} (h : kv ∈ pushAt m k x) :
    kv ∈ m ∨ ∃ k' v', (k', v') ∈ m ∧ kv = (k', v' ++ [x]) := by
  induction m with
  | nil =>
    left
    simpa [pushAt] using h
  | cons p rest ih =>
    rcases p with ⟨k', v'⟩
    simp only [pushAt] at h
    by_cases he : (k' == k) = true
    · rw [if_pos he] at h
      rcases List.mem_cons.mp h with h1 | h2
      · right; exact ⟨k', v', List.mem_cons_self _ _, h1⟩
      · left; exact List.mem_cons_of_mem _ h2
    · rw [if_neg he] at h
      rcases List.mem_cons.mp h with h1 | h2
      · left; rw [h1]; exact List.mem_cons_self _ _
      · rcases ih h2 with h3 | ⟨k2, v2, hmem, heq⟩
        · left; exact List.mem_cons_of_mem _ h3
        · right; exact ⟨k2, v2, List.mem_cons_of_mem _ hmem, heq⟩

theorem mem_getKey? {m : List (String × List String)} {k : String}
    {v : List String} (h : getKey? m k = some v) : ∃ k', (k', v) ∈ m := by
  induction m with
  | nil => simp [getKey?] at h
  | cons p rest ih =>
    rcases p with ⟨k', v'⟩
    simp only [getKey?] at h
    by_cases he : (k' == k) = true
    · rw [if_pos he] at h
      injection h with h
      exact ⟨k', by rw [h]; exact List.mem_cons_self _ _⟩
    · rw [if_neg he] at h
      rcases ih h with ⟨k2, hmem⟩
      exact ⟨k2, List.mem_cons_of_mem _ hmem⟩

theorem processLine_sections (st : PState) (line : String) :
    (processLine st line).sections = st.sections ∨
    (∃ name, (processLine st line).sections = setKey st.sections name []) ∨
    (∃ sec, (processLine st line).sections =
        pushAt st.sections sec ⟨stripBullet (jsTrimList line.data)⟩ ∧
      jsTrimList line.data ≠ []) := by
  unfold processLine
  by_cases h1 : (leadsList "===".data (jsTrimList line.data) &&
      trailsList "===".data (jsTrimList line.data)) = true
  · rw [if_pos h1]
    right; left
    exact ⟨_, rfl⟩
  · rw [if_neg h1]
    by_cases h2 : (st.currentSection == some DIAGRAM_KEY) = true
    · rw [if_pos h2]; left; rfl
    · rw [if_neg h2]
      cases hcs : st.currentSection with
      | none => left; rfl
      | some sec =>
        dsimp only
        by_cases h3 : (sec != "" && !(jsTrimList line.data).isEmpty) = true
        · rw [if_pos h3]
          right; right
          refine ⟨sec, rfl, ?_⟩
          simp only [Bool.and_eq_true, Bool.not_eq_true'] at h3
          intro hnil
          rw [hnil] at h3
          exact absurd h3.2 (by simp [List.isEmpty])
        · rw [if_neg h3]; left; rfl

theorem stInv_processLine {lines : List String} {st : PState} {line : String}
    (hline : line ∈ lines) (hst : stInv lines st) :
    stInv lines (processLine st line) := by
  intro kv hkv item hitem
  rcases processLine_sections st line with hs | ⟨name, hs⟩ | ⟨sec, hs, hne⟩
  · rw [hs] at hkv
    exact hst kv hkv item hitem
  · rw [hs] at hkv
    rcases mem_setKey hkv with h | h
    · exact hst kv h item hitem
    · rw [h] at hitem
      simp at hitem
  · rw [hs] at hkv
    rcases mem_pushAt hkv with h | ⟨k', v', hmem, hkv'⟩
    · exact hst kv h item hitem
    · rw [hkv'] at hitem
      rcases List.mem_append.mp hitem with h | h
    
      · exact hst (k', v') hmem item h
      · have hit : item = ⟨stripBullet (jsTrimList line.data)⟩ := by simpa using h
        subst hit
        have hsb := stripBullet_keeps (jsTrimList line.data) hne
          (fun c hc => trim_getLast_not_ws _ c hc)
        refine ⟨?_, ?_, ⟨line, hline, hne, rfl⟩⟩
        · intro hemp
          exact hsb.1 (congrArg String.data hemp)
        · unfold noTrailWs
          cases hlast : (String.data ⟨stripBullet (jsTrimList line.data)⟩).getLast? with
          | none => rfl
          | some c =>
            simp only
            rw [hsb.2 c hlast]
            rfl

theorem stInv_foldl {lines : List String} :
    ∀ (ls : List String), (∀ l ∈ ls, l ∈ lines) → ∀ st, stInv lines st →
    stInv lines (ls.foldl processLine st) := by
  intro ls
  induction ls with
  | nil => intro _ st h; exact h
  | cons l ls' ih =>
    intro hsub st hst
    simp only [List.foldl_cons]
    exact ih (fun x hx => hsub x (List.mem_cons_of_mem _ hx)) _
      (stInv_processLine (hsub l (List.mem_cons_self _ _)) hst)

theorem runParse_inv (text : String) : stInv (splitLines text) (runParse text) := by
  unfold runParse
  exact stInv_foldl (splitLines text) (fun l hl => hl) _
    (fun kv hkv => absurd hkv (List.not_mem_nil kv))

theorem getSection_itemOK (text : String) (key : String) (item : String)
    (h : item ∈ (getSection (runParse text).sections key).items) :
    itemOK (splitLines text) item := by
  unfold getSection at h
  cases hk : getKey? (runParse text).sections key with
  | none =>
    rw [hk] at h
    simp at h
  | some v =>
    rw [hk] at h
    simp only [Option.getD_some] at h
    rcases mem_getKey? hk with ⟨k', hmem⟩
    exact runParse_inv text (k', v) hmem item h

/-- C9 (amended): every entry of every non-diagram section of the parsed
report is a non-empty string with no trailing whitespace, obtained from the
trim of some input line by stripping a single leading bullet marker
('-', '•' or '*' followed by one whitespace character); leading whitespace
can remain when more than one whitespace character followed the marker. -/
theorem C9_item_invariant (text : String) (mode : AnalysisMode) (item : String)
    (h : item ∈ (parseAnalysisResult text mode).projectOverview.items ∨
         item ∈ (parseAnalysisResult text mode).architectureSummary.items ∨
         item ∈ (parseAnalysisResult text mode).componentBreakdown.items ∨
         item ∈ (parseAnalysisResult text mode).dataControlFlow.items ∨
         item ∈ (parseAnalysisResult text mode).codeQualityRisks.items ∨
         item ∈ (parseAnalysisResult text mode).improvementSuggestions.items) :
    item ≠ "" ∧ noTrailWs item = true ∧
    ∃ l ∈ splitLines text, jsTrimList l.data ≠ [] ∧
      item = ⟨stripBullet (jsTrimList l.data)⟩ := by
  rcases h with h | h | h | h | h | h
  · exact getSection_itemOK text OVERVIEW_KEY item h
  · exact getSection_itemOK text ARCHITECTURE_KEY item h
  · exact getSection_itemOK text COMPONENTS_KEY item h
  · exact getSection_itemOK text DATAFLOW_KEY item h
  · exact getSection_itemOK text QUALITY_KEY item h
  · exact getSection_itemOK text IMPROVEMENTS_KEY item h

/-- C9 counterexample: the line "-  x" (bullet, two spaces) trims to itself,
loses the marker and exactly one whitespace character, and is stored as
" x" — an item with leading whitespace, refuting the claim that items carry
no leading whitespace. -/
theorem C9_counterexample :
    (parseAnalysisResult "=== PROJECT OVERVIEW ===\n-  x"
        AnalysisMode.full).projectOverview.items = [" x"] ∧
    jsWhitespace ' ' = true := by decide

/-- C9 witness: the amended invariant at a concrete parsed item. -/
theorem C9_witness :
    ("Does X" : String) ≠ "" ∧ noTrailWs "Does X" = true ∧
    ∃ l ∈ splitLines "=== PROJECT OVERVIEW ===\n- Does X",
      jsTrimList l.data ≠ [] ∧
      ("Does X" : String) = ⟨stripBullet (jsTrimList l.data)⟩ :=
  C9_item_invariant "=== PROJECT OVERVIEW ===\n- Does X" AnalysisMode.full
    "Does X" (Or.inl (by decide))

/-! ## Context Fetcher model (src/services/github.ts) -/

/-- The outcome of one directory-listing request as `fetchDirectory` sees
it: a parsed JSON array on success, a non-2xx status, or a network/timeout
failure (rejection of `fetch` or an abort). -/
inductive HttpResp where
  | success (items : List GithubContentItem)
  | failure (status : Nat)
  | aborted
deriving Repr

/-- The JavaScript errors thrown inside the fetch layer. -/
inductive JsError where
  | rateLimit
  | apiStatus (status : Nat)
  | network
deriving DecidableEq, Repr

/-- The `try` body of `fetchDirectory` (src/services/github.ts 36-60):
404 becomes an empty listing, 403/429 throws `RATE_LIMIT`, any other
non-2xx status throws a generic error, an abort rejects. -/
def fetchDirectoryTry (resp : HttpResp) : Except JsError (List GithubContentItem) :=
  match resp with
  | HttpResp.success items => Except.ok items
  | HttpResp.failure status =>
    if status == 404 then Except.ok []
    else if status == 403 || status == 429 then Except.error JsError.rateLimit
    else Except.error (JsError.apiStatus status)
  | HttpResp.aborted => Except.error JsError.network

/-- `fetchDirectory` (src/services/github.ts 30-66): the `catch` re-throws
only `RATE_LIMIT` and converts every other failure into an empty listing. -/
def fetchDirectory (resp : HttpResp) : Except JsError (List GithubContentItem) :=
  match fetchDirectoryTry resp with
  | Except.ok l => Except.ok l
  | Except.error JsError.rateLimit => Except.error JsError.rateLimit
  | Except.error _ => Except.ok []

/-- The JSON body of one file-content response (`data.content`,
`data.encoding`). -/
structure GhFileJson where
  content : Option String
  encoding : Option String
deriving Repr

/-- The outcome of one per-file request inside `fetchFileContents`:
`failure` covers non-2xx statuses, network errors and aborts, all of which
the per-file `catch` turns into `null`. -/
inductive FileResp where
  | success (json : GhFileJson)
  | failure
deriving Repr

/-- Six-bit value of one base64 alphabet character. -/
def b64Val (c : Char) : Option Nat :=
  if 'A' ≤ c ∧ c ≤ 'Z' then some (c.toNat - 65)
  else if 'a' ≤ c ∧ c ≤ 'z' then some (c.toNat - 97 + 26)
  else if '0' ≤ c ∧ c ≤ '9' then some (c.toNat - 48 + 52)
  else if c = '+' then some 62
  else if c = '/' then some 63
  else none

/-- Pack six-bit groups into bytes (base64 bit layout; a trailing group of
one value cannot occur because a length of 1 mod 4 is rejected). -/
def decodeGroups : List Nat → List Nat
  | a :: b :: c :: d :: rest =>
    (a * 4 + b / 16) :: ((b % 16) * 16 + c / 4) :: ((c % 4) * 64 + d) ::
      decodeGroups rest
  | [a, b] => [a * 4 + b / 16]
  | [a, b, c] => [a * 4 + b / 16, (b % 16) * 16 + c / 4]
  | _ => []

/-- ASCII whitespace stripped by forgiving-base64 decoding. -/
def asciiWs (c : Char) : Bool :=
  c == '\t' || c == '\n' || c == '\x0c' || c == '\r' || c == ' '

/-- Strip one trailing '=' if present. -/
def stripPad (l : List Char) : List Char :=
  if l.getLast? == some '=' then l.dropLast else l

/-- Map every character to its six-bit value, failing on any character
outside the base64 alphabet. -/
def b64Vals : List Char → Option (List Nat)
  | [] => some []
  | c :: cs =>
    match b64Val c, b64Vals cs with
    | some v, some vs => some (v :: vs)
    | _, _ => none

/-- JavaScript `atob`: WHATWG forgiving-base64 decode, `none` where the
browser implementation throws. -/
def atob (s : String) : Option String :=
  let data := s.data.filter (fun c => !asciiWs c)
  let data := if data.length % 4 == 0 then stripPad (stripPad data) else data
  if data.length % 4 == 1 then none
  else
    match b64Vals data with
    | none => none
    | some vals => some ⟨(decodeGroups vals).map Char.ofNat⟩

/-- `data.content.replace(/\n/g, '')`: strip every newline from the base64
payload. -/
def removeNewlines (s : String) : String := ⟨s.data.filter (fun c => !(c == '\n'))⟩

/-- One per-file promise of `fetchFileContents` (src/services/github.ts
104-127): any failure, missing or empty content, non-base64 encoding or
undecodable payload yields `none` (the file is dropped). -/
def fetchOneFile (resp : FileResp) (file : GithubContentItem) : Option FileData :=
  match resp with
  | FileResp.failure => none
  | FileResp.success json =>
    match json.content with
    | none => none
    | some c =>
      if c != "" && json.encoding == some "base64" then
        match atob (removeNewlines c) with
        | some decoded => some ⟨file.path, decoded⟩
        | none => none
      else none

/-- The environment of one `getRepoContext` run: every directory path and
every selected file is mapped to the response the network returns for it. -/
structure FetchEnv where
  dir : String → HttpResp
  file : GithubContentItem → FileResp

/-- `fetchFileContents` (src/services/github.ts 101-131): `Promise.all`
resolves the per-file promises in input order and the `null` entries are
filtered out. -/
def fetchFileContents (env : FetchEnv) (files : List GithubContentItem) :
    List FileData :=
  files.filterMap (fun f => fetchOneFile (env.file f) f)

/-- The result shape of `getRepoContext`. -/
structure RepoContext where
  fileTree : List String
  files : List FileData
  isFallback : Bool
deriving DecidableEq, Repr

/-- The conventional source folders `getRepoContext` descends into. -/
def SOURCE_DIRS : List String := ["src", "app", "lib", "pkg"]

/-- The `rootItems.find` test of `getRepoContext` (src/services/github.ts
139-141). -/
def isSourceDir (i : GithubContentItem) : Bool :=
  decide (i.type = ItemType.dir) && SOURCE_DIRS.contains (jsToLower i.name)

/-- The listing phase of `getRepoContext`: the root listing followed by the
optional single source-folder listing, concatenated. -/
def listedItems (env : FetchEnv) : Except JsError (List GithubContentItem) := do
  let rootItems ← fetchDirectory (env.dir "")
  let sourceItems ← match rootItems.find? isSourceDir with
    | some sf => fetchDirectory (env.dir sf.path)
    | none => pure []
  pure (rootItems ++ sourceItems)

/-- The `try` body of `getRepoContext` (src/services/github.ts 134-163). -/
def getRepoContextTry (env : FetchEnv) : Except JsError RepoContext := do
  let allItems ← listedItems env
  pure ⟨allItems.map (fun i => i.path),
    fetchFileContents env (selectImportantFiles allItems), false⟩

/-- `getRepoContext` (src/services/github.ts 133-172): the `catch` turns a
`RATE_LIMIT` error into the fallback context and re-throws anything else. -/
def getRepoContext (env : FetchEnv) : Except JsError RepoContext :=
  match getRepoContextTry env with
  | Except.ok ctx => Except.ok ctx
  | Except.error JsError.rateLimit => Except.ok ⟨[], [], true⟩
  | Except.error e => Except.error e

/-! ## Claim C2 -/

/-- C2: contrary to the claim, a 404 (or any other non-2xx status, or a
network failure) on the root listing is not surfaced: `fetchDirectory`
catches its own thrown error and returns an empty listing, so
`getRepoContext` returns a normal empty context with `isFallback = false`
and its `catch` comment about bubbling the root failure up is dead code. -/
theorem C2_root_failure_not_surfaced :
    getRepoContext ⟨fun _ => HttpResp.failure 404, fun _ => FileResp.failure⟩ =
      Except.ok ⟨[], [], false⟩ ∧
    getRepoContext ⟨fun _ => HttpResp.failure 500, fun _ => FileResp.failure⟩ =
      Except.ok ⟨[], [], false⟩ ∧
    getRepoContext ⟨fun _ => HttpResp.aborted, fun _ => FileResp.failure⟩ =
      Except.ok ⟨[], [], false⟩ :=
  ⟨rfl, rfl, rfl⟩

/-! ## Claim C10 -/

theorem fetchOneFile_path {resp : FileResp} {f : GithubContentItem}
    {fd : FileData} (h : fetchOneFile resp f = some fd) : fd.path = f.path := by
  cases resp with
  | failure => simp [fetchOneFile] at h
  | success json =>
    rcases json with ⟨jc, je⟩
    cases jc with
    | none => simp [fetchOneFile] at h
    | some c =>
      simp only [fetchOneFile] at h
      by_cases hcond : (c != "" && je == some "base64") = true
      · rw [if_pos hcond] at h
        cases ha : atob (removeNewlines c) with
        | none => rw [ha] at h; simp at h
        | some d =>
          rw [ha] at h
          injection h with h
          rw [← h]
      · rw [if_neg hcond] at h; simp at h

theorem fetchFileContents_paths_sublist (env : FetchEnv)
    (files : List GithubContentItem) :
    ((fetchFileContents env files).map (fun fd => fd.path)).Sublist
      (files.map (fun f => f.path)) := by
  unfold fetchFileContents
  induction files with
  | nil => simp
  | cons f fs ih =>
    simp only [List.filterMap_cons, List.map_cons]
    cases hf : fetchOneFile (env.file f) f with
    | none => exact ih.cons _
    | some fd =>
      simp only [List.map_cons]
      rw [fetchOneFile_path hf]
      exact ih.cons₂ _

/-- C10: for every run of `getRepoContext` that lists `items` and returns a
context, the surviving file contents appear in the same relative order as
the selection produced by `selectImportantFiles` (their paths form a
sublist of the selection's paths), at most one per selected file, the tree
is the listing's paths, and the context is not a fallback. -/
theorem C10_files_keep_selection_order (env : FetchEnv)
    (items : List GithubContentItem) (ctx : RepoContext)
    (hl : listedItems env = Except.ok items)
    (hc : getRepoContext env = Except.ok ctx) :
    (ctx.files.map (fun fd => fd.path)).Sublist
      ((selectImportantFiles items).map (fun f => f.path)) ∧
    ctx.files.length ≤ (selectImportantFiles items).length ∧
    ctx.fileTree = items.map (fun i => i.path) ∧
    ctx.isFallback = false := by
  have htry : getRepoContextTry env =
      Except.ok ⟨items.map (fun i => i.path),
        fetchFileContents env (selectImportantFiles items), false⟩ := by
    unfold getRepoContextTry
    rw [hl]
    rfl
  unfold getRepoContext at hc
  rw [htry] at hc
  injection hc with hc
  rw [← hc]
  exact ⟨fetchFileContents_paths_sublist env (selectImportantFiles items),
    List.length_filterMap_le _ _, rfl, rfl⟩

/-- The environment of the C10 witness: one canonical root file whose
content request succeeds with the base64 payload "aGk=" ("hi"). -/
def c10Env : FetchEnv :=
  ⟨fun _ => HttpResp.success
      [⟨"package.json", "package.json", ItemType.file, "", none⟩],
   fun _ => FileResp.success ⟨some "aGk=", some "base64"⟩⟩

/-- C10 witness: the theorem applied to a concrete environment. -/
theorem C10_witness :
    (((RepoContext.mk ["package.json"] [⟨"package.json", "hi"⟩] false).files.map
        (fun fd => fd.path)).Sublist
      ((selectImportantFiles
          [⟨"package.json", "package.json", ItemType.file, "", none⟩]).map
        (fun f => f.path))) ∧
    (RepoContext.mk ["package.json"] [⟨"package.json", "hi"⟩] false).files.length ≤
      (selectImportantFiles
        [⟨"package.json", "package.json", ItemType.file, "", none⟩]).length ∧
    (RepoContext.mk ["package.json"] [⟨"package.json", "hi"⟩] false).fileTree =
      ([⟨"package.json", "package.json", ItemType.file, "", none⟩] :
          List GithubContentItem).map (fun i => i.path) ∧
    (RepoContext.mk ["package.json"] [⟨"package.json", "hi"⟩] false).isFallback =
      false :=
  C10_files_keep_selection_order c10Env
    [⟨"package.json", "package.json", ItemType.file, "", none⟩]
    (RepoContext.mk ["package.json"] [⟨"package.json", "hi"⟩] false)
    rfl rfl

/-! ## Report Requester (analyzeRepo, src/services/gemini.ts 101-165) -/

/-- The first line of the fallback context block, used as the
fallback-notice marker. -/
def FALLBACK_NOTICE : String :=
  "CRITICAL NOTICE: The repository files could not be fetched due to GitHub API Rate Limiting."

/-- The fallback context block up to the embedded repository name
(src/services/gemini.ts 116-120). -/
def fallbackPre : String :=
  "\n    " ++ FALLBACK_NOTICE ++
  "\n    \n    You must perform a \"Clean Room\" analysis based SOLELY on:\n    1. The repository name: \""

/-- The fallback context block after the embedded repository name
(src/services/gemini.ts 120-129). -/
def fallbackPost : String :=
  "\"\n    2. Your internal knowledge base if this is a well-known project.\n    3. Standard architectural patterns for this type of application.\n\n    Rules for Fallback Mode:\n    - Explicitly mention in the PROJECT OVERVIEW that this is an inferred analysis.\n    - Infer the likely technology stack and architecture.\n    - Provide general best-practice improvement suggestions for this specific type of project.\n    - Do NOT hallucinate specific file names unless they are standard conventions (e.g., package.json, Dockerfile).\n    "

/-- The fallback context block (src/services/gemini.ts 116-129). -/
def fallbackContext (repoName : String) : String :=
  fallbackPre ++ repoName ++ fallbackPost

/-- One delimited file block of the non-fallback context
(src/services/gemini.ts 131-135): the body is truncated to 8000 characters
by `f.content.substring(0, 8000)`. -/
def fileBlock (f : FileData) : String :=
  "\n--- START FILE: " ++ f.path ++ " ---\n" ++ jsSubstrTake f.content 8000 ++
  " \n--- END FILE: " ++ f.path ++ " ---\n"

/-- The joined file context (src/services/gemini.ts 131-135). -/
def fileContextOf (files : List FileData) : String :=
  joinSep "\n" (files.map fileBlock)

/-- The tree context (src/services/gemini.ts 137-141). -/
def treeContextOf (fileTree : List String) : String :=
  "\n--- FILE STRUCTURE (First 300 files) ---\n" ++ joinSep "\n" fileTree ++
  "\n--- END STRUCTURE ---\n"

/-- The context block of `analyzeRepo` (src/services/gemini.ts 113-143). -/
def contextSectionOf (repoName : String) (fileTree : List String)
    (files : List FileData) (isFallback : Bool) : String :=
  match isFallback with
  | true => fallbackContext repoName
  | false => treeContextOf fileTree ++ "\n\n" ++ fileContextOf files

/-- The prompt of `analyzeRepo` (src/services/gemini.ts 156-162).  `mode`
and `deepReasoning` are accepted and ignored exactly as in the source: they
shape only the system instruction and the thinking budget, never the
prompt or its context block. -/
def promptOf (repoName : String) (fileTree : List String) (files : List FileData)
    (mode : AnalysisMode) (deepReasoning : Bool) (isFallback : Bool) : String :=
  "\nAnalyze the repository \"" ++ repoName ++ "\".\n\n" ++
  contextSectionOf repoName fileTree files isFallback ++
  "\n\nProvide the RepoSense analysis now.\n"

/-! ## Substring-containment lemmas -/

theorem strData_append (a b : String) : (a ++ b).data = a.data ++ b.data := by
  cases a; cases b; rfl

theorem leadsList_refl (n : List Char) : leadsList n n = true := by
  induction n with
  | nil => rfl
  | cons a as ih => simp [leadsList, ih]

theorem leadsList_extend (n : List Char) :
    ∀ (h t : List Char), leadsList n h = true → leadsList n (h ++ t) = true := by
  induction n with
  | nil => intro h t _; rfl
  | cons a as ih =>
    intro h t hl
    cases h with
    | nil => simp [leadsList] at hl
    | cons b bs =>
      simp only [leadsList, Bool.and_eq_true] at hl
      simp only [List.cons_append, leadsList, Bool.and_eq_true]
      exact ⟨hl.1, ih bs t hl.2⟩

theorem occursIn_of_lead (n h : List Char) (hl : leadsList n h = true) :
    occursIn n h = true := by
  cases h with
  | nil => simpa [occursIn] using hl
  | cons c cs => simp [occursIn, hl]

theorem occursIn_cons (n : List Char) (c : Char) (h : List Char)
    (ho : occursIn n h = true) : occursIn n (c :: h) = true := by
  simp [occursIn, ho]

theorem occursIn_append_right (n pre h : List Char) (ho : occursIn n h = true) :
    occursIn n (pre ++ h) = true := by
  induction pre with
  | nil => exact ho
  | cons c cs ih => exact occursIn_cons n c _ ih

theorem occursIn_append_left (n : List Char) :
    ∀ (h t : List Char), occursIn n h = true → occursIn n (h ++ t) = true := by
  intro h
  induction h with
  | nil =>
    intro t ho
    cases n with
    | nil => exact occursIn_of_lead [] t rfl
    | cons a as => simpa [occursIn, leadsList] using ho
  | cons c cs ih =>
    intro t ho
    simp only [occursIn, Bool.or_eq_true] at ho
    rcases ho with hl | ho2
    · exact occursIn_of_lead n _
        (by simpa [List.cons_append] using leadsList_extend n (c :: cs) t hl)
    · exact occursIn_cons n c _ (ih t ho2)

theorem occursIn_self (n : List Char) : occursIn n n = true :=
  occursIn_of_lead n n (leadsList_refl n)

theorem occursIn_joinSep (sep x : String) (n : List Char) :
    ∀ (xs : List String), x ∈ xs → occursIn n x.data = true →
    occursIn n (joinSep sep xs).data = true := by
  intro xs
  induction xs with
  | nil => intro hx; cases hx
  | cons y ys ih =>
    intro hx hn
    rcases List.mem_cons.mp hx with rfl | hmem
    · cases ys with
      | nil => exact hn
      | cons z zs =>
        show occursIn n (x ++ sep ++ joinSep sep (z :: zs)).data = true
        rw [strData_append, strData_append]
        exact occursIn_append_left n _ _ (occursIn_append_left n _ _ hn)
    · cases ys with
      | nil => cases hmem
      | cons z zs =>
        show occursIn n (y ++ sep ++ joinSep sep (z :: zs)).data = true
        rw [strData_append, strData_append]
        exact occursIn_append_right n _ _ (ih hmem hn)

theorem strHas_self (s : String) : strHas s s = true :=
  occursIn_self s.data

theorem strHas_extend_right (a b n : String) (h : strHas a n = true) :
    strHas (a ++ b) n = true := by
  unfold strHas at h ⊢
  rw [strData_append]
  exact occursIn_append_left _ _ _ h

theorem strHas_extend_left (a b n : String) (h : strHas b n = true) :
    strHas (a ++ b) n = true := by
  unfold strHas at h ⊢
  rw [strData_append]
  exact occursIn_append_right _ _ _ h

theorem strHas_fallbackContext (r : String) :
    strHas (fallbackContext r) FALLBACK_NOTICE = true := by
  unfold fallbackContext fallbackPre
  apply strHas_extend_right
  apply strHas_extend_right
  apply strHas_extend_right
  apply strHas_extend_left
  exact strHas_self FALLBACK_NOTICE

/-! ## Claim C1 -/

set_option maxRecDepth 16384 in
/-- C1: whenever the fetch attempt ends in the rate-limit error (in
particular whenever the root listing answers 403 or 429), `getRepoContext`
returns the fallback context with `isFallback = true` and empty file and
tree lists rather than failing; the prompt built from that context contains
the fallback-notice instruction, is entirely independent of whatever files
or tree would have been supplied, and contains neither a file block nor a
tree-structure block. -/
theorem C1_rate_limited_fallback (env env2 : FetchEnv) (mode : AnalysisMode)
    (deep : Bool) (repoName : String) (fileTree : List String)
    (files : List FileData)
    (h1 : getRepoContextTry env = Except.error JsError.rateLimit)
    (h2 : env2.dir "" = HttpResp.failure 403 ∨ env2.dir "" = HttpResp.failure 429) :
    getRepoContext env = Except.ok ⟨[], [], true⟩ ∧
    getRepoContext env2 = Except.ok ⟨[], [], true⟩ ∧
    strHas (promptOf repoName [] [] mode deep true) FALLBACK_NOTICE = true ∧
    promptOf repoName fileTree files mode deep true =
      promptOf repoName [] [] mode deep true ∧
    strHas (promptOf "acme/widget" [] [] mode deep true) "--- START FILE:" = false ∧
    strHas (promptOf "acme/widget" [] [] mode deep true) "--- FILE STRUCTURE" = false := by
  have hdir : fetchDirectory (env2.dir "") = Except.error JsError.rateLimit := by
    rcases h2 with h | h <;> rw [h] <;> rfl
  refine ⟨?_, ?_, ?_, rfl, ?_, ?_⟩
  case refine_4 =>
    show strHas (promptOf "acme/widget" [] [] AnalysisMode.full false true)
      "--- START FILE:" = false
    decide
  case refine_5 =>
    show strHas (promptOf "acme/widget" [] [] AnalysisMode.full false true)
      "--- FILE STRUCTURE" = false
    decide
  · unfold getRepoContext
    rw [h1]
  · unfold getRepoContext getRepoContextTry listedItems
    rw [hdir]
    rfl
  · unfold promptOf
    apply strHas_extend_right
    apply strHas_extend_left
    exact strHas_fallbackContext repoName

/-- C1 witness: a root listing answering 403 produces the fallback context
and the fallback prompt. -/
theorem C1_witness :
    getRepoContext ⟨fun _ => HttpResp.failure 403, fun _ => FileResp.failure⟩ =
      Except.ok ⟨[], [], true⟩ ∧
    getRepoContext ⟨fun _ => HttpResp.failure 403, fun _ => FileResp.failure⟩ =
      Except.ok ⟨[], [], true⟩ ∧
    strHas (promptOf "acme/widget" [] [] AnalysisMode.full false true)
      FALLBACK_NOTICE = true ∧
    promptOf "acme/widget" ["src/index.ts"] [⟨"src/index.ts", "code"⟩]
        AnalysisMode.full false true =
      promptOf "acme/widget" [] [] AnalysisMode.full false true ∧
    strHas (promptOf "acme/widget" [] [] AnalysisMode.full false true)
      "--- START FILE:" = false ∧
    strHas (promptOf "acme/widget" [] [] AnalysisMode.full false true)
      "--- FILE STRUCTURE" = false :=
  C1_rate_limited_fallback
    ⟨fun _ => HttpResp.failure 403, fun _ => FileResp.failure⟩
    ⟨fun _ => HttpResp.failure 403, fun _ => FileResp.failure⟩
    AnalysisMode.full false "acme/widget" ["src/index.ts"]
    [⟨"src/index.ts", "code"⟩] rfl (Or.inl rfl)

/-! ## Claim C7 -/

theorem strHas_fileContext (files : List FileData) (f : FileData)
    (hf : f ∈ files) :
    strHas (fileContextOf files) (jsSubstrTake f.content 8000) = true := by
  unfold strHas fileContextOf
  apply occursIn_joinSep "\n" (fileBlock f) _ (files.map fileBlock)
    (List.mem_map_of_mem _ hf)
  unfold fileBlock
  simp only [strData_append]
  apply occursIn_append_left
  apply occursIn_append_left
  apply occursIn_append_left
  apply occursIn_append_right
  exact occursIn_self _

/-- C7 (amended): the Requester truncates each selected file's text to the
fixed 8000-character budget of `f.content.substring(0, 8000)` — the prompt
contains exactly that truncation of each selected file and the truncation
never exceeds 8000 characters — but the budget is the same whether or not
deep-reasoning is requested: the prompt is identical for both settings of
the flag.  (The streaming variant in src/unnamed/part_003 is the one that
widens the budget, 12000 against 5000, under deep reasoning.) -/
theorem C7_fixed_truncation_budget (repoName : String) (tree : List String)
    (files : List FileData) (f : FileData) (mode : AnalysisMode) (d d' : Bool)
    (hf : f ∈ files) :
    promptOf repoName tree files mode d false =
      promptOf repoName tree files mode d' false ∧
    strHas (promptOf repoName tree files mode d false)
      (jsSubstrTake f.content 8000) = true ∧
    (jsSubstrTake f.content 8000).length ≤ 8000 := by
  refine ⟨rfl, ?_, ?_⟩
  · unfold promptOf
    apply strHas_extend_right
    apply strHas_extend_left
    show strHas (treeContextOf tree ++ "\n\n" ++ fileContextOf files) _ = true
    apply strHas_extend_left
    exact strHas_fileContext files f hf
  · show (f.content.data.take 8000).length ≤ 8000
    exact List.length_take_le _ _

/-- An 8001-character file content. -/
def longContent : String := ⟨List.replicate 8001 'x'⟩

/-- C7 counterexample: with an 8001-character file, the prompt built with
deep-reasoning requested is character-for-character identical to the prompt
built without it, and the included body is cut at 8000 characters in both;
there is no strictly larger deep-reasoning character budget in
src/services/gemini.ts. -/
theorem C7_counterexample :
    promptOf "r" [] [⟨"a.ts", longContent⟩] AnalysisMode.full true false =
      promptOf "r" [] [⟨"a.ts", longContent⟩] AnalysisMode.full false false ∧
    (jsSubstrTake longContent 8000).length = 8000 ∧
    longContent.length = 8001 := by
  refine ⟨rfl, ?_, ?_⟩
  · have h : (jsSubstrTake longContent 8000).length =
        ((List.replicate 8001 'x').take 8000).length := rfl
    rw [h, List.length_take, List.length_replicate]
    omega
  · have h : longContent.length = (List.replicate 8001 'x').length := rfl
    rw [h, List.length_replicate]

/-- C7 witness: the amended theorem at a concrete selected file. -/
theorem C7_witness :
    promptOf "r" ["t"] [⟨"a.ts", "hello"⟩] AnalysisMode.full true false =
      promptOf "r" ["t"] [⟨"a.ts", "hello"⟩] AnalysisMode.full false false ∧
    strHas (promptOf "r" ["t"] [⟨"a.ts", "hello"⟩] AnalysisMode.full true false)
      (jsSubstrTake "hello" 8000) = true ∧
    (jsSubstrTake ("hello" : String) 8000).length ≤ 8000 :=
  C7_fixed_truncation_budget "r" ["t"] [⟨"a.ts", "hello"⟩] ⟨"a.ts", "hello"⟩
    AnalysisMode.full true false (by decide)

/-! ## Repository Locator (parseRepoUrl, src/services/github.ts 5-19) -/

/-- An (owner, repo) pair. -/
structure RepoRef where
  owner : String
  repo : String
deriving DecidableEq, Repr

/-- Characters ending the authority of a special-scheme URL. -/
def authEnd (c : Char) : Bool := c == '/' || c == '\\' || c == '?' || c == '#'

/-- Characters ending the path of a URL. -/
def pathEnd (c : Char) : Bool := c == '?' || c == '#'

/-- Drop the userinfo: keep what follows the last '@' (the whole list when
no '@' is present). -/
def afterLastAt (l : List Char) : List Char :=
  (l.reverse.takeWhile (fun c => !(c == '@'))).reverse

/-- Model of the WHATWG `URL` constructor restricted to `http(s)` URLs,
returning the (hostname, pathname) pair, or `none` where the constructor
throws.  Modelled behaviour: after the scheme every further `/` or `\` is
skipped; the authority runs to the next `/`, `\`, `?` or `#`; userinfo
before the last `@` is dropped; the part after the first `:` must be empty
or all digits (the port) and is dropped; an empty host fails; the hostname
is ASCII-lowercased; the path runs to the next `?` or `#` with `\`
normalised to `/`.  Percent-encoding and dot-segment normalisation of full
WHATWG parsing are not modelled; no property proved here depends on them. -/
def urlModel (s : String) : Option (String × String) :=
  let l := s.data
  let afterScheme :=
    if leadsList "https://".data l then some (l.drop 8)
    else if leadsList "http://".data l then some (l.drop 7)
    else none
  match afterScheme with
  | none => none
  | some rest0 =>
    let rest := rest0.dropWhile (fun c => c == '/' || c == '\\')
    let auth := rest.takeWhile (fun c => !authEnd c)
    let tail := rest.dropWhile (fun c => !authEnd c)
    if auth.isEmpty then none
    else
      let hp := afterLastAt auth
      let host := hp.takeWhile (fun c => !(c == ':'))
      let portPart := hp.dropWhile (fun c => !(c == ':'))
      let portOk : Bool :=
        match portPart with
        | [] => true
        | _ :: p => p.all Char.isDigit
      if host.isEmpty || !portOk then none
      else
        let path :=
          (tail.takeWhile (fun c => !pathEnd c)).map
            (fun c => if c == '\\' then '/' else c)
        some (⟨toLowerList host⟩, ⟨path⟩)

/-- The scheme normalisation of `parseRepoUrl` (src/services/github.ts 8-10):
prepend `https://` unless the trimmed input already starts with `http://`
or `https://`. -/
def withScheme (s : String) : String :=
  if strStarts s "http://" || strStarts s "https://" then s else "https://" ++ s

/-- `urlObj.pathname.split('/').filter(Boolean)`. -/
def pathSegs (pathname : String) : List String :=
  ((splitOnChar '/' pathname.data).map (fun l => (⟨l⟩ : String))).filter
    (fun p => p != "")

/-- The body of `parseRepoUrl` after scheme normalisation
(src/services/github.ts 11-15): host gate, then the first two non-empty
path segments taken verbatim. -/
def parseCleanUrl (cleanUrl : String) : Option RepoRef :=
  match urlModel cleanUrl with
  | none => none
  | some (host, pathname) =>
    if !(host == "github.com") && !(host == "www.github.com") then none
    else
      if (pathSegs pathname).length ≥ 2 then
        some ⟨(pathSegs pathname).headD "", (pathSegs pathname).tail.headD ""⟩
      else none

/-- `parseRepoUrl` (src/services/github.ts 5-19): trim, normalise the
scheme, parse; the `catch` makes every failure a `null`. -/
def parseRepoUrl (url : String) : Option RepoRef :=
  parseCleanUrl (withScheme (jsTrim url))

/-! ## Claim C8 -/

/-- C8: `parseRepoUrl` is total (failure is the value `none`, never a
throw); a scheme-less input is parsed by prepending `https://` to its
trimmed form; whenever URL parsing fails the result is `none`; whenever it
succeeds, the result is `none` unless the host is `github.com` or
`www.github.com` and at least two non-empty path segments exist, in which
case owner and repo are the first two segments verbatim — no case
normalisation and no stripping of a trailing `.git`, as the two concrete
scenarios show. -/
theorem C8_parseRepoUrl_spec (s s2 s3 : String) (h p : String)
    (hm : urlModel (withScheme (jsTrim s)) = some (h, p))
    (hn : urlModel (withScheme (jsTrim s2)) = none)
    (hs : (strStarts (jsTrim s3) "http://" || strStarts (jsTrim s3) "https://")
      = false) :
    parseRepoUrl "github.com/acme/widget" = some ⟨"acme", "widget"⟩ ∧
    parseRepoUrl "https://github.com/Acme/Widget.git" =
      some ⟨"Acme", "Widget.git"⟩ ∧
    parseRepoUrl s2 = none ∧
    (withScheme (jsTrim s3) = "https://" ++ jsTrim s3 ∧
      parseRepoUrl s3 = parseCleanUrl ("https://" ++ jsTrim s3)) ∧
    parseRepoUrl s =
      (if !(h == "github.com") && !(h == "www.github.com") then none
       else
         if (pathSegs p).length ≥ 2 then
           some ⟨(pathSegs p).headD "", (pathSegs p).tail.headD ""⟩
         else none) := by
  have hws : withScheme (jsTrim s3) = "https://" ++ jsTrim s3 := by
    unfold withScheme
    rw [hs]
    rfl
  refine ⟨by decide, by decide, ?_, ⟨hws, ?_⟩, ?_⟩
  · unfold parseRepoUrl parseCleanUrl
    rw [hn]
  · unfold parseRepoUrl
    rw [hws]
  · unfold parseRepoUrl parseCleanUrl
    rw [hm]

/-- C8 witness: the theorem applied at three concrete inputs — a bare
scheme-less repository URL, the unparsable string `https://`, and the same
bare URL again for the scheme-prepending clause. -/
theorem C8_witness :
    parseRepoUrl "github.com/acme/widget" = some ⟨"acme", "widget"⟩ ∧
    parseRepoUrl "https://github.com/Acme/Widget.git" =
      some ⟨"Acme", "Widget.git"⟩ ∧
    parseRepoUrl "https://" = none ∧
    (withScheme (jsTrim "github.com/acme/widget") =
        "https://" ++ jsTrim "github.com/acme/widget" ∧
      parseRepoUrl "github.com/acme/widget" =
        parseCleanUrl ("https://" ++ jsTrim "github.com/acme/widget")) ∧
    parseRepoUrl "github.com/acme/widget" =
      (if !(("github.com" : String) == "github.com") &&
          !(("github.com" : String) == "www.github.com") then none
       else
         if (pathSegs "/acme/widget").length ≥ 2 then
           some ⟨(pathSegs "/acme/widget").headD "",
             (pathSegs "/acme/widget").tail.headD ""⟩
         else none) :=
  C8_parseRepoUrl_spec "github.com/acme/widget" "https://"
    "github.com/acme/widget" "github.com" "/acme/widget"
    (by decide) (by decide) (by decide)
